import Mathlib

/-!
Verification development for the lwk hardware-signer descriptor bridge
(`jade/src/register_multisig.rs`) and for the wollet transaction-builder
analysis, ledger and persistence contracts.  The bridge is embedded
directly from the Rust source; the builder, ledger and persistence parts,
whose defining code is not among the given sources (only their test
harness is), are modelled from the specification and are marked as such in
their doc comments.
-/

set_option autoImplicit false
set_option linter.unusedVariables false

namespace LwkProof

/-! ### Extended public keys and their textual form -/

/-- Characters of the base58 alphabet used by the textual serialization of
extended public keys.  The alphabet excludes `0`, `O`, `I` and `l`, and in
particular contains neither the path separator `/` nor the origin
brackets. -/
def isBase58Char (c : Char) : Bool :=
  ("123456789ABCDEFGHJKLMNPQRSTUVWXYZabcdefghijkmnopqrstuvwxyz".data).contains c

/-- Model of `bitcoin::bip32::ExtendedPubKey`: the key is kept as its
base58 serialization, which is all the bridge record retains of it. -/
structure ExtendedPubKey where
  b58 : String
deriving DecidableEq, Repr

/-- Model of `ExtendedPubKey::from_str`.  The real decoder accepts exactly
base58check serializations; the checksum and length checks are abstracted
away (they only reject further strings, and every string fed to this
parser on a success path of this development is the serialization the key
was built from).  A string containing a path separator or an origin
bracket is rejected, exactly as the real parser rejects it, because those
characters are outside the base58 alphabet. -/
def parseExtendedPubKey (s : String) : Option ExtendedPubKey :=
  if s.data.isEmpty then none
  else if s.data.all isBase58Char then some ⟨s⟩ else none

/-! ### Derivation paths -/

/-- Model of `bitcoin::bip32::ChildNumber`: one derivation step, normal or
hardened.  The stored index of the real type is below 2^31 by
construction; the model normalizes with a modulus where the raw value
matters. -/
inductive ChildNumber
  | normal (i : Nat)
  | hardened (i : Nat)
deriving DecidableEq, Repr

/-- The raw 32-bit value of a child number: hardened steps set the top
bit. -/
def ChildNumber.toU32 : ChildNumber → Nat
  | .normal i => i % 2 ^ 31
  | .hardened i => 2 ^ 31 + i % 2 ^ 31

/-- Modelled from the spec: the jade crate function `derivation_path_to_vec`
(its definition lies outside the given sources) turns a derivation path
into the sequence of raw 32-bit indices of its steps — "derivation = full
path from the master to that key, as a sequence of 32-bit indices". -/
def derivation_path_to_vec (p : List ChildNumber) : List Nat :=
  p.map ChildNumber.toU32

/-- Lowercase hex digit for a value taken modulo 16. -/
def hexDigitChar (n : Nat) : Char :=
  ("0123456789abcdef".data).getD (n % 16) (Char.ofNat 48)

/-- Two lowercase hex digits of one byte. -/
def byteHex (b : Nat) : String := ⟨[hexDigitChar (b / 16), hexDigitChar b]⟩

/-- Lowercase hex rendering of a byte sequence. -/
def bytesHex (bs : List Nat) : String := String.join (bs.map byteHex)

/-- Display of one derivation step.  The real rendering marks hardened
steps with the apostrophe character; the model prints `h`, which the bip32
parser also accepts.  The choice is invisible to every theorem below:
each rendered step starts with the separator `/`, which already lies
outside the base58 alphabet. -/
def ChildNumber.render : ChildNumber → String
  | .normal i => toString (i % 2 ^ 31)
  | .hardened i => toString (i % 2 ^ 31) ++ "h"

/-- Display of a derivation path as appended `/step` segments. -/
def renderPath (p : List ChildNumber) : String :=
  String.join (p.map fun c => "/" ++ c.render)

/-- A 4-byte master fingerprint. -/
abbrev Fingerprint := List Nat

/-- A key origin: master fingerprint plus derivation path from the
master. -/
abbrev KeyOrigin := Fingerprint × List ChildNumber

/-- Display of an optional key origin, bracketed as in descriptors. -/
def renderOrigin : Option KeyOrigin → String
  | none => ""
  | some (fp, path) => "[" ++ bytesHex fp ++ renderPath path ++ "]"

/-! ### Descriptor public keys -/

/-- Data of a single extended key with optional origin, further
derivation steps and an optional trailing wildcard. -/
structure XPubData where
  origin : Option KeyOrigin
  xkeyB58 : String
  xkeyFingerprint : Fingerprint
  derivationPath : List ChildNumber
  wildcard : Bool
deriving DecidableEq, Repr

/-- Data of a multipath extended key (several derivation paths, written
with angle brackets in descriptors). -/
structure MultiXPubData where
  origin : Option KeyOrigin
  xkeyB58 : String
  xkeyFingerprint : Fingerprint
  derivationPaths : List (List ChildNumber)
  wildcard : Bool
deriving DecidableEq, Repr

/-- Model of `elements_miniscript::DescriptorPublicKey`: a single
extended key, a multipath extended key, or a bare (non-extended) public
key kept as its hex rendering together with the fingerprint the crate
computes for it. -/
inductive DescriptorPublicKey
  | xpub (d : XPubData)
  | multiXPub (d : MultiXPubData)
  | single (origin : Option KeyOrigin) (keyHex : String) (keyFingerprint : Fingerprint)
deriving DecidableEq, Repr

/-- The derivation-path component of an optional origin. -/
def originPath : Option KeyOrigin → List ChildNumber
  | none => []
  | some (_, p) => p

/-- Model of `DescriptorPublicKey::master_fingerprint`: the origin
fingerprint when an origin is present, otherwise the fingerprint of the
key itself. -/
def master_fingerprint : DescriptorPublicKey → Fingerprint
  | .xpub d =>
    match d.origin with
    | some (fp, _) => fp
    | none => d.xkeyFingerprint
  | .multiXPub d =>
    match d.origin with
    | some (fp, _) => fp
    | none => d.xkeyFingerprint
  | .single o _ fp =>
    match o with
    | some (f, _) => f
    | none => fp

/-- Model of `DescriptorPublicKey::full_derivation_path`: the origin path
extended by the derivation path of the key itself; `none` on multipath
keys (there is no single such path). -/
def full_derivation_path : DescriptorPublicKey → Option (List ChildNumber)
  | .xpub d => some (originPath d.origin ++ d.derivationPath)
  | .multiXPub _ => none
  | .single o _ _ => some (originPath o)

/-- Model of the `Display` rendering of `DescriptorPublicKey`: bracketed
origin, then the key, then further derivation steps and the wildcard.
The multipath arm renders its paths schematically between angle brackets;
no theorem below inspects that rendering, because the conversion fails at
`full_derivation_path` on a multipath key before reaching it. -/
def renderKey : DescriptorPublicKey → String
  | .xpub d =>
      renderOrigin d.origin ++ d.xkeyB58 ++ renderPath d.derivationPath
        ++ (if d.wildcard then "/*" else "")
  | .multiXPub d =>
      renderOrigin d.origin ++ d.xkeyB58 ++ "/<;>"
        ++ (if d.wildcard then "/*" else "")
  | .single o h _ => renderOrigin o ++ h

/-- Remove every occurrence of the two-character pattern `/*`, scanning
left to right: model of the Rust expression `.replace("/*", "")`, which
replaces all occurrences, not only a trailing one. -/
def stripWildcardAux : List Char → List Char
  | [] => []
  | '/' :: '*' :: rest => stripWildcardAux rest
  | c :: rest => c :: stripWildcardAux rest

/-- String form of `stripWildcardAux`. -/
def stripWildcard (s : String) : String := ⟨stripWildcardAux s.data⟩

/-! ### Confidential descriptors -/

/-- Model of `elements_miniscript::confidential::Key`: a slip77 master
blinding key (kept as its 32 bytes), or one of the other confidentiality
key sources (bare or view), which the conversion rejects uniformly. -/
inductive CtKey
  | slip77 (bytes : List Nat)
  | bare (pk : DescriptorPublicKey)
  | view (sk : List Nat)
deriving DecidableEq, Repr

/-- Model of `elements_miniscript::Terminal`: the conversion only ever
distinguishes a flat `Terminal::Multi` node; every other miniscript node
(`pk`, `and`, `or`, `thresh`, time locks, hashes, ...) is collapsed into
`other`, which the source maps to `Err(())` uniformly. -/
inductive Terminal
  | multi (k : Nat) (keys : List DescriptorPublicKey)
  | other
deriving DecidableEq, Repr

/-- Model of `elements_miniscript::descriptor::WshInner`: a sortedmulti
vector (threshold and keys) or a general miniscript with top node. -/
inductive WshInner
  | sortedMulti (k : Nat) (pks : List DescriptorPublicKey)
  | ms (node : Terminal)
deriving DecidableEq, Repr

/-- Model of `elements_miniscript::Descriptor`: only the `Wsh` arm is
distinguished by the conversion; the remaining templates (bare, pkh,
wpkh, sh, tr, ...) are collapsed into `other`, mapped to `Err(())`
uniformly. -/
inductive Descriptor
  | wsh (inner : WshInner)
  | other
deriving DecidableEq, Repr

/-- Model of `ConfidentialDescriptor<DescriptorPublicKey>`: a
confidentiality key source plus a spending-policy descriptor. -/
structure ConfidentialDescriptor where
  key : CtKey
  descriptor : Descriptor
deriving DecidableEq, Repr

/-! ### The Jade registration record and the conversion -/

/-- `MultisigSigner` of `register_multisig.rs`, field for field. -/
structure MultisigSigner where
  fingerprint : Fingerprint
  derivation : List Nat
  xpub : ExtendedPubKey
  path : List Nat
deriving DecidableEq, Repr

/-- `JadeDescriptor` of `register_multisig.rs`, field for field; the
threshold is a 32-bit value kept as a `Nat`. -/
structure JadeDescriptor where
  variant : String
  sorted : Bool
  threshold : Nat
  master_blinding_key : List Nat
  signers : List MultisigSigner
deriving DecidableEq, Repr

/-- Result of `JadeDescriptor::try_from`.  `errored` is `Err(())`: the
error type of the impl is the unit type, so the conversion has a single,
undifferentiated error value.  `panicked` records that one of the two
`.unwrap()` calls in a loop body failed, which aborts instead of
returning. -/
inductive ConvResult
  | ok (d : JadeDescriptor)
  | errored
  | panicked
deriving DecidableEq, Repr

/-- The per-key body of the signer loops of `try_from`: master
fingerprint, full derivation path (`.unwrap()`), the key rendered,
stripped of wildcard markers and reparsed as a bare extended key
(`.unwrap()`), and an empty suffix path.  `none` models a panic of either
unwrap. -/
def mkSigner (pk : DescriptorPublicKey) : Option MultisigSigner :=
  match full_derivation_path pk with
  | none => none
  | some fullPath =>
    match parseExtendedPubKey (stripWildcard (renderKey pk)) with
    | none => none
    | some x =>
      some { fingerprint := master_fingerprint pk,
             derivation := derivation_path_to_vec fullPath,
             xpub := x,
             path := [] }

/-- The signer-collecting loop of `try_from`, in declaration order of the
keys; `none` models the panic raised at the first failing key. -/
def mkSigners : List DescriptorPublicKey → Option (List MultisigSigner)
  | [] => some []
  | pk :: rest =>
    match mkSigner pk, mkSigners rest with
    | some s, some ss => some (s :: ss)
    | _, _ => none

/-- `JadeDescriptor::try_from`, line by line: the variant string is
fixed; a non-slip77 key source returns `Err(())` before the descriptor is
inspected; then only `Wsh` with a sortedmulti inner or a miniscript whose
top node is a flat `Multi` succeeds; `as u32` on the threshold is
reduction modulo 2^32. -/
def try_from (desc : ConfidentialDescriptor) : ConvResult :=
  match desc.key with
  | .slip77 k =>
    match desc.descriptor with
    | .wsh (.sortedMulti t pks) =>
      match mkSigners pks with
      | none => .panicked
      | some signers =>
        .ok { variant := "wsh(multi(k))", sorted := true, threshold := t % 2 ^ 32,
              master_blinding_key := k, signers := signers }
    | .wsh (.ms (.multi t keys)) =>
      match mkSigners keys with
      | none => .panicked
      | some signers =>
        .ok { variant := "wsh(multi(k))", sorted := false, threshold := t % 2 ^ 32,
              master_blinding_key := k, signers := signers }
    | .wsh (.ms .other) => .errored
    | .other => .errored
  | _ => .errored

/-- The key source is the slip77 deterministic scheme. -/
def isSlip77 : CtKey → Bool
  | .slip77 _ => true
  | _ => false

/-- The spending-policy shapes the bridge accepts: a wsh-wrapped
sortedmulti, or a wsh-wrapped script whose top node is a flat multi
term. -/
def isWshMultisig : Descriptor → Bool
  | .wsh (.sortedMulti _ _) => true
  | .wsh (.ms (.multi _ _)) => true
  | _ => false

/-- The key list of the spending policy, in declaration order (empty for
shapes without a key list). -/
def keysOf (desc : ConfidentialDescriptor) : List DescriptorPublicKey :=
  match desc.descriptor with
  | .wsh (.sortedMulti _ pks) => pks
  | .wsh (.ms (.multi _ keys)) => keys
  | _ => []

/-! ### Concrete instances used by the witnesses -/

/-- A wildcard extended key with empty derivation from the master. -/
def keyA : DescriptorPublicKey :=
  .xpub { origin := none, xkeyB58 := "tpubDAAA", xkeyFingerprint := [146, 26, 57, 253],
          derivationPath := [], wildcard := true }

/-- A second wildcard extended key with empty derivation from the
master. -/
def keyB : DescriptorPublicKey :=
  .xpub { origin := none, xkeyB58 := "tpubDBBB", xkeyFingerprint := [195, 206, 35, 178],
          derivationPath := [], wildcard := true }

/-- A 32-byte slip77 master blinding key. -/
def slipKey : List Nat := List.replicate 32 7

/-- The signer record the bridge derives from `keyA`. -/
def signerA : MultisigSigner :=
  { fingerprint := [146, 26, 57, 253], derivation := [], xpub := ⟨"tpubDAAA"⟩, path := [] }

/-- The signer record the bridge derives from `keyB`. -/
def signerB : MultisigSigner :=
  { fingerprint := [195, 206, 35, 178], derivation := [], xpub := ⟨"tpubDBBB"⟩, path := [] }

/-- The 2-of-2 fixed-order multisig confidential descriptor over `keyA`
and `keyB`. -/
def descMulti22 : ConfidentialDescriptor :=
  ⟨.slip77 slipKey, .wsh (.ms (.multi 2 [keyA, keyB]))⟩

/-- The same descriptor written with sortedmulti. -/
def descSorted22 : ConfidentialDescriptor :=
  ⟨.slip77 slipKey, .wsh (.sortedMulti 2 [keyA, keyB])⟩

/-- The record the bridge produces for `descMulti22`. -/
def jadeMulti22 : JadeDescriptor :=
  { variant := "wsh(multi(k))", sorted := false, threshold := 2,
    master_blinding_key := slipKey, signers := [signerA, signerB] }

/-- An extended key carrying an origin: its rendering keeps the bracketed
origin after wildcard stripping, so the reparse as a bare extended key
fails. -/
def keyBad : DescriptorPublicKey :=
  .xpub { origin := some ([222, 173, 190, 239], [ChildNumber.hardened 44]),
          xkeyB58 := "tpubDCCC", xkeyFingerprint := [9, 9, 9, 9],
          derivationPath := [], wildcard := true }

/-- A slip77 wsh-multi descriptor over `keyBad`. -/
def descBad : ConfidentialDescriptor :=
  ⟨.slip77 slipKey, .wsh (.ms (.multi 1 [keyBad]))⟩

/-! ### Helper lemmas about the signer loop -/

/-- A successful signer loop is an element-wise, order-preserving map of
the key list. -/
theorem mkSigners_get (pks : List DescriptorPublicKey) (ss : List MultisigSigner)
    (h : mkSigners pks = some ss) :
    ss.length = pks.length ∧
      ∀ i : Nat, ∀ hk : i < pks.length, ∀ hs : i < ss.length,
        mkSigner (pks.get ⟨i, hk⟩) = some (ss.get ⟨i, hs⟩) := by
  induction pks generalizing ss with
  | nil =>
    simp only [mkSigners] at h
    cases h
    exact ⟨rfl, fun i hk _ => absurd hk (Nat.not_lt_zero i)⟩
  | cons pk rest ih =>
    simp only [mkSigners] at h
    cases hpk : mkSigner pk with
    | none => rw [hpk] at h; exact absurd h (by simp)
    | some s =>
      rw [hpk] at h
      cases hrest : mkSigners rest with
      | none => rw [hrest] at h; exact absurd h (by simp)
      | some ssr =>
        rw [hrest] at h
        simp only [Option.some.injEq] at h
        subst h
        obtain ⟨hlen, hget⟩ := ih ssr hrest
        refine ⟨by simpa using hlen, ?_⟩
        intro i hk hs
        cases i with
        | zero => simpa using hpk
        | succ j =>
          have hk' : j < rest.length := by simpa using hk
          have hs' : j < ssr.length := by simpa using hs
          simpa using hget j hk' hs'

/-- If every key converts, the loop as a whole converts. -/
theorem mkSigners_isSome (pks : List DescriptorPublicKey)
    (h : ∀ pk ∈ pks, (mkSigner pk).isSome = true) :
    (mkSigners pks).isSome = true := by
  induction pks with
  | nil => simp [mkSigners]
  | cons pk rest ih =>
    have hpk := h pk (List.mem_cons_self pk rest)
    have hrest := ih fun q hq => h q (List.mem_cons_of_mem pk hq)
    simp only [mkSigners]
    cases hp : mkSigner pk with
    | none => rw [hp] at hpk; simp at hpk
    | some s =>
      cases hr : mkSigners rest with
      | none => rw [hr] at hrest; simp at hrest
      | some ss => simp

/-- Field-level description of a successful per-key conversion. -/
theorem mkSigner_fields (pk : DescriptorPublicKey) (s : MultisigSigner)
    (h : mkSigner pk = some s) :
    s.fingerprint = master_fingerprint pk
    ∧ (∃ p, full_derivation_path pk = some p ∧ s.derivation = derivation_path_to_vec p)
    ∧ parseExtendedPubKey (stripWildcard (renderKey pk)) = some s.xpub
    ∧ s.path = []
    ∧ ∀ n ∈ s.derivation, n < 2 ^ 32 := by
  unfold mkSigner at h
  cases hp : full_derivation_path pk with
  | none => rw [hp] at h; exact absurd h (by simp)
  | some fullPath =>
    rw [hp] at h
    cases hx : parseExtendedPubKey (stripWildcard (renderKey pk)) with
    | none => rw [hx] at h; exact absurd h (by simp)
    | some x =>
      rw [hx] at h
      simp only [Option.some.injEq] at h
      subst h
      refine ⟨rfl, ⟨fullPath, rfl, rfl⟩, rfl, rfl, ?_⟩
      intro n hn
      simp only [derivation_path_to_vec, List.mem_map] at hn
      obtain ⟨c, _, hc⟩ := hn
      subst hc
      cases c with
      | normal i =>
        have : i % 2 ^ 31 < 2 ^ 31 := Nat.mod_lt _ (by norm_num)
        simp only [ChildNumber.toU32]
        omega
      | hardened i =>
        have : i % 2 ^ 31 < 2 ^ 31 := Nat.mod_lt _ (by norm_num)
        simp only [ChildNumber.toU32]
        omega

/-- On every accepted descriptor, the signer list is the successful run of
the signer loop over the policy keys. -/
theorem try_from_ok_signers (desc : ConfidentialDescriptor) (jd : JadeDescriptor)
    (h : try_from desc = ConvResult.ok jd) :
    mkSigners (keysOf desc) = some jd.signers := by
  obtain ⟨key, d⟩ := desc
  cases key with
  | slip77 k =>
    cases d with
    | wsh inner =>
      cases inner with
      | sortedMulti t pks =>
        simp only [try_from, keysOf] at h ⊢
        cases hs : mkSigners pks with
        | none => rw [hs] at h; exact absurd h (by simp)
        | some ss => rw [hs] at h; cases h; rfl
      | ms node =>
        cases node with
        | multi t keys =>
          simp only [try_from, keysOf] at h ⊢
          cases hs : mkSigners keys with
          | none => rw [hs] at h; exact absurd h (by simp)
          | some ss => rw [hs] at h; cases h; rfl
        | other => exact absurd h (by simp [try_from])
    | other => exact absurd h (by simp [try_from])
  | bare pk => exact absurd h (by simp [try_from])
  | view sk => exact absurd h (by simp [try_from])

/-! ### C1 — rejection is the single undifferentiated error -/

/-- C1: for every confidential descriptor whose confidentiality key source
is not slip77, or whose spending policy is not a wsh multisig (wsh-wrapped
sortedmulti or wsh-wrapped script with a flat top-level multi), the
conversion returns `Err(())` — the single undifferentiated unsupported
error, the only error value of the impl — and in particular neither a
record nor a panic. -/
theorem c1_unsupported_rejection (desc : ConfidentialDescriptor)
    (h : isSlip77 desc.key = false ∨ isWshMultisig desc.descriptor = false) :
    try_from desc = ConvResult.errored := by
  obtain ⟨key, d⟩ := desc
  cases key with
  | slip77 k =>
    cases d with
    | wsh inner =>
      cases inner with
      | sortedMulti t pks => simp [isSlip77, isWshMultisig] at h
      | ms node =>
        cases node with
        | multi t keys => simp [isSlip77, isWshMultisig] at h
        | other => rfl
    | other => rfl
  | bare pk => rfl
  | view sk => rfl

/-- Witness for C1 at a concrete view-key descriptor. -/
theorem c1_unsupported_rejection_witness :
    try_from ⟨CtKey.view [1], Descriptor.other⟩ = ConvResult.errored :=
  c1_unsupported_rejection ⟨CtKey.view [1], Descriptor.other⟩ (Or.inl rfl)

/-! ### C2 — supported conversions succeed with the preserved shape -/

/-- C2: the 2-of-2 fixed-order multisig descriptor over keys A and B with
slip77 key source converts to the record with variant `wsh(multi(k))`,
sorted false, threshold 2 and the signers in the key order of the
descriptor; the sortedmulti spelling of the same descriptor yields sorted
true with the same threshold and the same signers.  In general, for every
supported threshold `t` between 1 and the key count (the descriptor
parser caps key lists at 20 keys) and every key list whose signer loop
succeeds, the fixed-order conversion records sorted false, the threshold
and the key-ordered signer list, and the sorted conversion records sorted
true with the same data. -/
theorem c2_supported_conversion (mbk : List Nat) (t : Nat)
    (keys : List DescriptorPublicKey) (ss : List MultisigSigner)
    (h1 : 1 ≤ t) (h2 : t ≤ keys.length) (h3 : keys.length ≤ 20)
    (hss : mkSigners keys = some ss) :
    try_from descMulti22 = ConvResult.ok jadeMulti22
    ∧ try_from descSorted22
      = ConvResult.ok { jadeMulti22 with sorted := true }
    ∧ try_from ⟨CtKey.slip77 mbk, Descriptor.wsh (WshInner.ms (Terminal.multi t keys))⟩
      = ConvResult.ok { variant := "wsh(multi(k))", sorted := false, threshold := t,
                        master_blinding_key := mbk, signers := ss }
    ∧ try_from ⟨CtKey.slip77 mbk, Descriptor.wsh (WshInner.sortedMulti t keys)⟩
      = ConvResult.ok { variant := "wsh(multi(k))", sorted := true, threshold := t,
                        master_blinding_key := mbk, signers := ss } := by
  have ht : t % 2 ^ 32 = t := Nat.mod_eq_of_lt (by omega)
  refine ⟨by decide, by decide, ?_, ?_⟩
  · simp only [try_from, hss, ht]
  · simp only [try_from, hss, ht]

/-- Witness for C2 at the concrete 2-of-2 descriptor over keys A and B. -/
theorem c2_supported_conversion_witness :
    try_from descMulti22 = ConvResult.ok jadeMulti22 :=
  (c2_supported_conversion slipKey 2 [keyA, keyB] [signerA, signerB]
    (by decide) (by decide) (by decide) (by decide)).1

/-! ### C3 — the fields of every emitted signer entry -/

/-- C3: on every descriptor the bridge accepts, the signer list is the
order-preserving image of the policy keys, and the entry of each key
carries: the master fingerprint of that key; the full derivation path
from the master as raw 32-bit indices (each below 2^32, and empty when
the key carries no origin and no further steps, i.e. is the master
itself); the key reparsed after stripping the wildcard marker; and an
always-empty per-signer suffix path. -/
theorem c3_signer_fields (desc : ConfidentialDescriptor) (jd : JadeDescriptor)
    (h : try_from desc = ConvResult.ok jd) :
    mkSigners (keysOf desc) = some jd.signers
    ∧ jd.signers.length = (keysOf desc).length
    ∧ ∀ i : Nat, ∀ hk : i < (keysOf desc).length, ∀ hs : i < jd.signers.length,
        (jd.signers.get ⟨i, hs⟩).fingerprint = master_fingerprint ((keysOf desc).get ⟨i, hk⟩)
        ∧ (∃ p, full_derivation_path ((keysOf desc).get ⟨i, hk⟩) = some p
              ∧ (jd.signers.get ⟨i, hs⟩).derivation = derivation_path_to_vec p)
        ∧ parseExtendedPubKey (stripWildcard (renderKey ((keysOf desc).get ⟨i, hk⟩)))
            = some (jd.signers.get ⟨i, hs⟩).xpub
        ∧ (jd.signers.get ⟨i, hs⟩).path = []
        ∧ (∀ n ∈ (jd.signers.get ⟨i, hs⟩).derivation, n < 2 ^ 32)
        ∧ (full_derivation_path ((keysOf desc).get ⟨i, hk⟩) = some []
            → (jd.signers.get ⟨i, hs⟩).derivation = []) := by
  have hms := try_from_ok_signers desc jd h
  obtain ⟨hlen, hget⟩ := mkSigners_get (keysOf desc) jd.signers hms
  refine ⟨hms, hlen, ?_⟩
  intro i hk hs
  have hone := hget i hk hs
  obtain ⟨hfp, ⟨p, hp, hder⟩, hx, hpath, hbound⟩ :=
    mkSigner_fields ((keysOf desc).get ⟨i, hk⟩) (jd.signers.get ⟨i, hs⟩) hone
  refine ⟨hfp, ⟨p, hp, hder⟩, hx, hpath, hbound, ?_⟩
  intro hnil
  rw [hp] at hnil
  cases hnil
  rw [hder]
  rfl

/-- Witness for C3 at the concrete 2-of-2 descriptor. -/
theorem c3_signer_fields_witness :
    mkSigners (keysOf descMulti22) = some jadeMulti22.signers :=
  (c3_signer_fields descMulti22 jadeMulti22 (by decide)).1

/-! ### C4 — the conversion can panic, contrary to the claim -/

/-- Counterexample to C4: the conversion is not total.  On a parseable
slip77 wsh-multi descriptor whose key carries a bracketed origin, the
stripped rendering does not reparse as a bare extended key, the second
`.unwrap()` of the loop body fails, and the conversion panics instead of
returning a record or the error. -/
theorem c4_totality_counterexample : try_from descBad = ConvResult.panicked := by
  decide

/-- C4 (amended): the conversion is a pure, deterministic function of the
descriptor, and it is total — returning a record or the declared error,
never panicking — on every descriptor each of whose policy keys has a
full derivation path (is not a multipath key) and reparses after wildcard
stripping; without that proviso the two `.unwrap()` calls of the loop
body can panic. -/
theorem c4_totality_amended (desc : ConfidentialDescriptor)
    (h : ∀ pk ∈ keysOf desc, (mkSigner pk).isSome = true) :
    try_from desc ≠ ConvResult.panicked := by
  obtain ⟨key, d⟩ := desc
  cases key with
  | slip77 k =>
    cases d with
    | wsh inner =>
      cases inner with
      | sortedMulti t pks =>
        have hsome := mkSigners_isSome pks (by simpa [keysOf] using h)
        simp only [try_from]
        cases hs : mkSigners pks with
        | none => rw [hs] at hsome; simp at hsome
        | some ss => simp
      | ms node =>
        cases node with
        | multi t keys =>
          have hsome := mkSigners_isSome keys (by simpa [keysOf] using h)
          simp only [try_from]
          cases hs : mkSigners keys with
          | none => rw [hs] at hsome; simp at hsome
          | some ss => simp
        | other => simp [try_from]
    | other => simp [try_from]
  | bare pk => simp [try_from]
  | view sk => simp [try_from]

/-- Witness for the amended C4 at the concrete 2-of-2 descriptor. -/
theorem c4_totality_amended_witness : try_from descMulti22 ≠ ConvResult.panicked :=
  c4_totality_amended descMulti22 (by decide)

/-! ### C10 — the sorted branch also preserves the literal key order -/

/-- C10: the sortedmulti branch iterates the keys in declaration order,
so for one key list whose signer loop yields `ss`, the sortedmulti
conversion and the fixed-order multi conversion both succeed with the
identical signer list `ss` — identical content and identical order — and
differ only in the sorted flag (the threshold is the same `as u32`
value). -/
theorem c10_sorted_preserves_order (mbk : List Nat) (k : Nat)
    (keys : List DescriptorPublicKey) (ss : List MultisigSigner)
    (hss : mkSigners keys = some ss) :
    try_from ⟨CtKey.slip77 mbk, Descriptor.wsh (WshInner.sortedMulti k keys)⟩
      = ConvResult.ok { variant := "wsh(multi(k))", sorted := true, threshold := k % 2 ^ 32,
                        master_blinding_key := mbk, signers := ss }
    ∧ try_from ⟨CtKey.slip77 mbk, Descriptor.wsh (WshInner.ms (Terminal.multi k keys))⟩
      = ConvResult.ok { variant := "wsh(multi(k))", sorted := false, threshold := k % 2 ^ 32,
                        master_blinding_key := mbk, signers := ss } := by
  constructor
  · simp only [try_from, hss]
  · simp only [try_from, hss]

/-- Witness for C10 at the concrete sortedmulti descriptor over keys A
and B. -/
theorem c10_sorted_preserves_order_witness :
    try_from descSorted22 = ConvResult.ok { jadeMulti22 with sorted := true } :=
  (c10_sorted_preserves_order slipKey 2 [keyA, keyB] [signerA, signerB] (by decide)).1

/-! ### The wollet builder analysis

The wollet transaction builder, its `get_details` analysis and the ledger
are code of this repository that is not among the given sources; only
their test harness (`lwk_wollet/tests/test_wollet.rs`) is.  The
definitions below are therefore modelled from the specification
(sections 3, 4.2 and 4.3), at the granularity the claims need: a built
transaction records the consumed wallet inputs, the outputs returning to
the wallet, the outputs leaving it, the fee and the issuance records, and
the analysis derives the per-asset net balance delta from them. -/

/-- An asset identifier (a 32-byte tag in the implementation). -/
abbrev AssetId := Nat

/-- A transaction outpoint. -/
structure OutPoint where
  txid : Nat
  vout : Nat
deriving DecidableEq, Repr

/-- A selected wallet input: its outpoint and its unblinded asset and
amount. -/
structure Utxo where
  outpoint : OutPoint
  asset : AssetId
  value : Nat
deriving DecidableEq, Repr

/-- A recipient of a payment intent. -/
structure Recipient where
  address : Nat
  satoshi : Nat
  asset : AssetId
deriving DecidableEq, Repr

/-- Modelled from the spec: an IssuanceRecord — input index, resulting
asset identifier, reissuance-token identifier, asset amount, token amount
(absent on reissuance, and absent when the issuance created no token
output), and the reissuance flag. -/
structure IssuanceRecord where
  vin : Nat
  asset : AssetId
  token : AssetId
  assetAmount : Option Nat
  tokenAmount : Option Nat
  isReissuance : Bool
deriving DecidableEq, Repr

/-- Modelled from the spec: the all-zero 32-byte contract hash used when
no contract is supplied. -/
def zeroContractHash : List Nat := List.replicate 32 0

/-- The contract hash of an optional contract, defaulting to the all-zero
hash. -/
def contractHashOf (c : Option (List Nat)) : List Nat := c.getD zeroContractHash

/-- Modelled from the spec: the deterministic new-asset identifier
derived from the consumed outpoint and the contract hash
(`AssetId::new_issuance`); the midstate hash is abstracted to an
injective pairing. -/
def newIssuanceAssetId (prevout : OutPoint) (contractHash : List Nat) : AssetId :=
  2 * Nat.pair (Nat.pair prevout.txid prevout.vout) (contractHash.foldl Nat.pair 0)

/-- Modelled from the spec: the deterministic reissuance-token identifier
for the same issuance, distinct from the asset identifier. -/
def newIssuanceTokenId (prevout : OutPoint) (contractHash : List Nat) : AssetId :=
  2 * Nat.pair (Nat.pair prevout.txid prevout.vout) (contractHash.foldl Nat.pair 0) + 1

/-- Modelled from the spec: the pre-signing view of a built transaction —
consumed wallet inputs, outputs paying back to the wallet (change,
self-payments, issued amounts), outputs leaving the wallet (external
recipients, burn outputs), the fee and the issuance records. -/
structure BuiltTx where
  consumed : List Utxo
  walletOuts : List (AssetId × Nat)
  externalOuts : List (AssetId × Nat)
  fee : Nat
  issuances : List IssuanceRecord
deriving Repr

/-- Modelled from the spec: the TransactionAnalysis snapshot — fee,
per-asset net balance delta (negative = outflow), and the issuance
records of the transaction. -/
structure TransactionAnalysis where
  fee : Nat
  balances : AssetId → Int
  issuances : List IssuanceRecord

/-- Total amount carried by the entries of one asset. -/
def sumAsset (l : List (AssetId × Nat)) (a : AssetId) : Nat :=
  ((l.filter fun p => p.1 == a).map fun p => p.2).sum

/-- Total unblinded amount of the consumed inputs of one asset. -/
def sumConsumed (l : List Utxo) (a : AssetId) : Nat :=
  ((l.filter fun u => u.asset == a).map fun u => u.value).sum

/-- Modelled from the spec: `get_details` — the per-asset net balance
delta is what the wallet gets back minus what it spends, the fee and the
issuance list are those of the built transaction. -/
def getDetails (tx : BuiltTx) : TransactionAnalysis :=
  { fee := tx.fee,
    balances := fun a => (sumAsset tx.walletOuts a : Int) - (sumConsumed tx.consumed a : Int),
    issuances := tx.issuances }

/-- Modelled from the spec: fee computation — fee rate times the
estimated transaction weight, denominated in the policy asset, and
"strictly positive whenever the transaction has outputs" (every built
transaction modelled here has outputs). -/
def computeFee (feeRate weight : Nat) : Nat := max 1 (feeRate * weight)

/-- The distinct assets of a funding set, in first-occurrence order. -/
def assetsOf (l : List Utxo) : List AssetId := (l.map fun u => u.asset).dedup

/-- Total amount addressed to recipients of one asset. -/
def recipSum (recipients : List Recipient) (a : AssetId) : Nat :=
  ((recipients.filter fun r => r.asset == a).map fun r => r.satoshi).sum

/-- The outflow of one asset towards recipients outside the wallet. -/
def externalOutflow (owned : Nat → Bool) (recipients : List Recipient) (a : AssetId) : Nat :=
  recipSum (recipients.filter fun r => !owned r.address) a

/-- Modelled from the spec: `finish()` on a payment intent — coin
selection abstracted as the given funding set; the recipients are split
into wallet-owned and external addresses; one change output per funded
asset returns the residual after recipients and fee. -/
def buildPayment (policy : AssetId) (feeRate weight : Nat) (owned : Nat → Bool)
    (funding : List Utxo) (recipients : List Recipient) : BuiltTx :=
  let fee := computeFee feeRate weight
  { consumed := funding,
    walletOuts :=
      ((recipients.filter fun r => owned r.address).map fun r => (r.asset, r.satoshi))
        ++ (assetsOf funding).map fun a =>
            (a, sumConsumed funding a - recipSum recipients a - (if a = policy then fee else 0)),
    externalOuts := (recipients.filter fun r => !owned r.address).map fun r => (r.asset, r.satoshi),
    fee := fee,
    issuances := [] }

/-- Modelled from the spec: `finish()` on an issuance intent — the new
asset and token identifiers derive from the first consumed outpoint and
the (defaulted) contract hash; the issued amounts pay back to the wallet;
the single issuance record sits on input 0, with the token amount absent
when the requested token amount is zero.  `none` when no input funds the
issuance. -/
def buildIssuance (policy : AssetId) (feeRate weight : Nat) (funding : List Utxo)
    (satAsset satToken : Nat) (contract : Option (List Nat)) : Option BuiltTx :=
  match funding with
  | [] => none
  | u :: rest =>
    let fee := computeFee feeRate weight
    let ch := contractHashOf contract
    let asset := newIssuanceAssetId u.outpoint ch
    let token := newIssuanceTokenId u.outpoint ch
    some { consumed := u :: rest,
           walletOuts := [(asset, satAsset)]
             ++ (if satToken = 0 then [] else [(token, satToken)])
             ++ (assetsOf (u :: rest)).map fun a =>
                  (a, sumConsumed (u :: rest) a - (if a = policy then fee else 0)),
           externalOuts := [],
           fee := fee,
           issuances := [{ vin := 0, asset := asset, token := token,
                           assetAmount := some satAsset,
                           tokenAmount := if satToken = 0 then none else some satToken,
                           isReissuance := false }] }

/-- Modelled from the spec: `finish()` on a reissuance intent — it
requires the prior issuance record of the target asset (to locate its
token identifier and entropy) and consumes a token input of that token,
which it returns in full to the wallet, so the token balance nets to
zero; the single record has the reissuance flag set and no token
amount. -/
def buildReissuance (policy : AssetId) (feeRate weight : Nat) (tokenUtxo : Utxo)
    (funding : List Utxo) (prior : IssuanceRecord) (satAsset : Nat) : Option BuiltTx :=
  if prior.isReissuance then none
  else if tokenUtxo.asset = prior.token then
    let fee := computeFee feeRate weight
    some { consumed := tokenUtxo :: funding,
           walletOuts := [(prior.asset, satAsset), (prior.token, tokenUtxo.value)]
             ++ (assetsOf funding).map fun a =>
                  (a, sumConsumed funding a - (if a = policy then fee else 0)),
           externalOuts := [],
           fee := fee,
           issuances := [{ vin := 0, asset := prior.asset, token := prior.token,
                           assetAmount := some satAsset, tokenAmount := none,
                           isReissuance := true }] }
  else none

/-- Modelled from the spec: `finish()` on a burn intent — the burned
amount leaves the wallet in a provably unspendable output; change
returns the residual of each funded asset after the burned amount and the
fee, so for the policy asset the burn amount adds to the fee outflow. -/
def buildBurn (policy : AssetId) (feeRate weight : Nat) (funding : List Utxo)
    (satoshi : Nat) (asset : AssetId) : BuiltTx :=
  let fee := computeFee feeRate weight
  { consumed := funding,
    walletOuts := (assetsOf funding).map fun a =>
        (a, sumConsumed funding a - (if a = asset then satoshi else 0)
              - (if a = policy then fee else 0)),
    externalOuts := [(asset, satoshi)],
    fee := fee,
    issuances := [] }

/-! ### Sum lemmas -/

/-- Asset sums distribute over list append. -/
theorem sumAsset_append (l1 l2 : List (AssetId × Nat)) (a : AssetId) :
    sumAsset (l1 ++ l2) a = sumAsset l1 a + sumAsset l2 a := by
  simp [sumAsset, List.filter_append]

/-- The asset sum of the per-recipient output list is the recipient
sum. -/
theorem sumAsset_map_recip (rs : List Recipient) (a : AssetId) :
    sumAsset (rs.map fun r => (r.asset, r.satoshi)) a = recipSum rs a := by
  induction rs with
  | nil => rfl
  | cons r rest ih =>
    simp only [List.map_cons, sumAsset, recipSum, List.filter_cons] at *
    cases h : (r.asset == a) <;> simp_all

/-- Recipient sums split along any boolean partition of the
recipients. -/
theorem recipSum_partition (p : Recipient → Bool) (rs : List Recipient) (a : AssetId) :
    recipSum (rs.filter p) a + recipSum (rs.filter fun r => !p r) a = recipSum rs a := by
  induction rs with
  | nil => rfl
  | cons r rest ih =>
    simp only [recipSum, List.filter_cons] at *
    cases hp : p r <;> cases ha : (r.asset == a) <;>
      simp_all [List.filter_cons] <;> omega

/-- On a duplicate-free asset list, the sum of a one-entry-per-asset map
at a member is its entry. -/
theorem sumAsset_map_fun (as : List AssetId) (g : AssetId → Nat) (a : AssetId)
    (hnd : as.Nodup) (ha : a ∈ as) :
    sumAsset (as.map fun x => (x, g x)) a = g a := by
  induction as with
  | nil => cases ha
  | cons x rest ih =>
    simp only [List.map_cons, sumAsset, List.filter_cons] at *
    obtain ⟨hx, hnd'⟩ := List.nodup_cons.mp hnd
    rcases List.mem_cons.mp ha with rfl | hmem
    · have hxrest : ∀ y ∈ rest, (y == a) = false := by
        intro y hy
        exact beq_false_of_ne fun hya => hx (hya ▸ hy)
      have : (rest.map fun x => (x, g x)).filter (fun p => p.1 == a) = [] := by
        apply List.filter_eq_nil_iff.mpr
        intro p hp
        simp only [List.mem_map] at hp
        obtain ⟨y, hy, rfl⟩ := hp
        simp [hxrest y hy]
      simp [this, sumAsset]
    · have hxa : (x == a) = false := beq_false_of_ne fun hxa => hx (hxa ▸ hmem)
      simp only [hxa, cond_false]
      exact ih hnd' hmem

/-- The sum of a one-entry-per-asset map vanishes at a non-member. -/
theorem sumAsset_map_fun_not_mem (as : List AssetId) (g : AssetId → Nat) (a : AssetId)
    (ha : a ∉ as) :
    sumAsset (as.map fun x => (x, g x)) a = 0 := by
  induction as with
  | nil => rfl
  | cons x rest ih =>
    simp only [List.map_cons, sumAsset, List.filter_cons] at *
    have hxa : (x == a) = false := beq_false_of_ne fun hxa => ha (hxa ▸ List.mem_cons_self x rest)
    have := ih fun hm => ha (List.mem_cons_of_mem x hm)
    simp only [hxa, cond_false]
    exact this

/-- A consumed-input sum vanishes for an asset outside the funding
assets. -/
theorem sumConsumed_not_mem (l : List Utxo) (a : AssetId) (ha : a ∉ assetsOf l) :
    sumConsumed l a = 0 := by
  induction l with
  | nil => rfl
  | cons u rest ih =>
    have hmem : a ∉ (u :: rest).map fun x => x.asset := fun hm =>
      ha (List.mem_dedup.mpr hm)
    simp only [List.map_cons, List.mem_cons, not_or] at hmem
    obtain ⟨hua, hrest⟩ := hmem
    have hua' : (u.asset == a) = false := beq_false_of_ne fun h => hua h.symm
    have : sumConsumed rest a = 0 := ih fun hm => hrest (List.mem_dedup.mp hm)
    simp only [sumConsumed, List.filter_cons, hua', cond_false] at *
    exact this

/-- One consumed input contributes its value exactly when its asset
matches. -/
theorem sumConsumed_cons (u : Utxo) (l : List Utxo) (a : AssetId) :
    sumConsumed (u :: l) a
      = (if u.asset = a then u.value else 0) + sumConsumed l a := by
  simp only [sumConsumed, List.filter_cons]
  cases h : (u.asset == a) with
  | false =>
    have : ¬ u.asset = a := fun he => by simp [he] at h
    simp [this]
  | true =>
    have : u.asset = a := by simpa using h
    simp [this]

/-! ### C5 — analysis of a built payment transaction -/

/-- C5: for every built payment transaction (recipients only), the
policy-asset net balance delta of the pre-signing analysis equals minus
the sum of the fee and the external outflow (so minus the fee alone when
no recipient is external), the issuance list of the analysis is empty,
and the fee is strictly positive.  The funding hypotheses say that the
coin selection funds the policy asset and covers recipients plus fee. -/
theorem c5_payment_analysis (policy : AssetId) (feeRate weight : Nat) (owned : Nat → Bool)
    (funding : List Utxo) (recipients : List Recipient)
    (hmem : policy ∈ assetsOf funding)
    (hcov : recipSum recipients policy + computeFee feeRate weight
              ≤ sumConsumed funding policy) :
    (getDetails (buildPayment policy feeRate weight owned funding recipients)).balances policy
      = -((computeFee feeRate weight : Int)
           + (externalOutflow owned recipients policy : Int))
    ∧ (getDetails (buildPayment policy feeRate weight owned funding recipients)).issuances = []
    ∧ 0 < (getDetails (buildPayment policy feeRate weight owned funding recipients)).fee := by
  refine ⟨?_, rfl, ?_⟩
  · have hchange :
        sumAsset ((assetsOf funding).map fun a =>
            (a, sumConsumed funding a - recipSum recipients a
                  - (if a = policy then computeFee feeRate weight else 0))) policy
          = sumConsumed funding policy - recipSum recipients policy
              - computeFee feeRate weight := by
      simpa using sumAsset_map_fun (assetsOf funding)
        (fun a => sumConsumed funding a - recipSum recipients a
            - (if a = policy then computeFee feeRate weight else 0))
        policy (List.nodup_dedup _) hmem
    have hpart :
        recipSum (recipients.filter fun r => owned r.address) policy
          + recipSum (recipients.filter fun r => !owned r.address) policy
          = recipSum recipients policy :=
      recipSum_partition (fun r => owned r.address) recipients policy
    show (sumAsset (((recipients.filter fun r => owned r.address).map
              fun r => (r.asset, r.satoshi))
            ++ (assetsOf funding).map fun a =>
                (a, sumConsumed funding a - recipSum recipients a
                      - (if a = policy then computeFee feeRate weight else 0))) policy : Int)
          - (sumConsumed funding policy : Int)
        = -((computeFee feeRate weight : Int)
             + (externalOutflow owned recipients policy : Int))
    rw [sumAsset_append, sumAsset_map_recip, hchange]
    simp only [externalOutflow]
    omega
  · exact Nat.lt_of_lt_of_le Nat.one_pos (le_max_left 1 (feeRate * weight))

/-- Witness for C5 at a concrete external payment. -/
theorem c5_payment_analysis_witness :
    (getDetails (buildPayment 0 1 100 (fun _ => false)
        [⟨⟨0, 0⟩, 0, 100000⟩] [⟨5, 10, 0⟩])).balances 0
      = -((computeFee 1 100 : Int)
           + (externalOutflow (fun _ => false) [⟨5, 10, 0⟩] 0 : Int)) :=
  (c5_payment_analysis 0 1 100 (fun _ => false) [⟨⟨0, 0⟩, 0, 100000⟩] [⟨5, 10, 0⟩]
    (by decide) (by decide)).1

/-! ### C6 — analysis of a built issuance transaction -/

/-- C6: every built issuance transaction requesting asset amount `A` and
token amount `T` carries exactly one issuance record, with asset amount
`A`, token amount `T` — absent exactly when `T` is zero — and asset and
token identifiers equal to the deterministic function of the consumed
outpoint and the contract hash, the contract hash defaulting to the
all-zero hash when no contract is supplied. -/
theorem c6_issuance_record (policy feeRate weight satAsset satToken : Nat)
    (contract : Option (List Nat)) (u : Utxo) (rest : List Utxo) (tx : BuiltTx)
    (h : buildIssuance policy feeRate weight (u :: rest) satAsset satToken contract
          = some tx) :
    (getDetails tx).issuances
      = [{ vin := 0,
           asset := newIssuanceAssetId u.outpoint (contractHashOf contract),
           token := newIssuanceTokenId u.outpoint (contractHashOf contract),
           assetAmount := some satAsset,
           tokenAmount := if satToken = 0 then none else some satToken,
           isReissuance := false }]
    ∧ contractHashOf none = zeroContractHash := by
  simp only [buildIssuance, Option.some.injEq] at h
  subst h
  exact ⟨rfl, rfl⟩

/-- A concrete funded issuance input. -/
def utxoC : Utxo := ⟨⟨9, 1⟩, 0, 100000⟩

/-- The concrete issuance transaction built from it. -/
def issTxC : BuiltTx :=
  (buildIssuance 0 1 100 [utxoC] 500 250 none).getD ⟨[], [], [], 0, []⟩

/-- Witness for C6 at the concrete issuance. -/
theorem c6_issuance_record_witness :
    (getDetails issTxC).issuances
      = [{ vin := 0,
           asset := newIssuanceAssetId utxoC.outpoint (contractHashOf none),
           token := newIssuanceTokenId utxoC.outpoint (contractHashOf none),
           assetAmount := some 500,
           tokenAmount := if (250 : Nat) = 0 then none else some 250,
           isReissuance := false }]
    ∧ contractHashOf none = zeroContractHash :=
  c6_issuance_record 0 1 100 500 250 none utxoC [] issTxC rfl

/-! ### C7 — analysis of a built reissuance transaction -/

/-- C7: every built reissuance transaction carries exactly one issuance
record, with the reissuance flag set, no token amount, and the token
identifier of the prior issuance of the target asset; the balance delta
of the reissued asset equals the requested amount and the delta of the
reissuance token is zero.  The hypotheses record that the asset, token
and policy identifiers are three distinct assets and that the ordinary
funding inputs carry neither of the two. -/
theorem c7_reissuance_analysis (policy feeRate weight satAsset : Nat)
    (tokenUtxo : Utxo) (funding : List Utxo) (prior : IssuanceRecord) (tx : BuiltTx)
    (h : buildReissuance policy feeRate weight tokenUtxo funding prior satAsset = some tx)
    (hta : prior.asset ≠ prior.token) (htp : prior.token ≠ policy) (hap : prior.asset ≠ policy)
    (htf : prior.token ∉ assetsOf funding) (haf : prior.asset ∉ assetsOf funding) :
    (getDetails tx).issuances
      = [{ vin := 0, asset := prior.asset, token := prior.token,
           assetAmount := some satAsset, tokenAmount := none, isReissuance := true }]
    ∧ (getDetails tx).balances prior.asset = (satAsset : Int)
    ∧ (getDetails tx).balances prior.token = 0 := by
  simp only [buildReissuance] at h
  by_cases hr : prior.isReissuance
  · simp [hr] at h
  · rw [if_neg hr] at h
    by_cases htu : tokenUtxo.asset = prior.token
    · rw [if_pos htu, Option.some.injEq] at h
      subst h
      have hchA :
          sumAsset ((assetsOf funding).map fun a =>
              (a, sumConsumed funding a
                    - (if a = policy then computeFee feeRate weight else 0))) prior.asset
            = 0 :=
        sumAsset_map_fun_not_mem _ _ _ haf
      have hchT :
          sumAsset ((assetsOf funding).map fun a =>
              (a, sumConsumed funding a
                    - (if a = policy then computeFee feeRate weight else 0))) prior.token
            = 0 :=
        sumAsset_map_fun_not_mem _ _ _ htf
      have hconA : sumConsumed funding prior.asset = 0 := sumConsumed_not_mem _ _ haf
      have hconT : sumConsumed funding prior.token = 0 := sumConsumed_not_mem _ _ htf
      have hbta : ((prior.token : AssetId) == prior.asset) = false :=
        beq_false_of_ne fun he => hta he.symm
      have hbat : ((prior.asset : AssetId) == prior.token) = false :=
        beq_false_of_ne hta
      refine ⟨rfl, ?_, ?_⟩
      · show (sumAsset ([(prior.asset, satAsset), (prior.token, tokenUtxo.value)]
                ++ (assetsOf funding).map fun a =>
                    (a, sumConsumed funding a
                          - (if a = policy then computeFee feeRate weight else 0)))
                prior.asset : Int)
              - (sumConsumed (tokenUtxo :: funding) prior.asset : Int)
            = (satAsset : Int)
        rw [sumAsset_append, hchA, sumConsumed_cons, hconA]
        have hne : ¬ tokenUtxo.asset = prior.asset := fun he => hta (htu ▸ he).symm
        rw [if_neg hne]
        simp [sumAsset, List.filter_cons, hbta]
      · show (sumAsset ([(prior.asset, satAsset), (prior.token, tokenUtxo.value)]
                ++ (assetsOf funding).map fun a =>
                    (a, sumConsumed funding a
                          - (if a = policy then computeFee feeRate weight else 0)))
                prior.token : Int)
              - (sumConsumed (tokenUtxo :: funding) prior.token : Int)
            = 0
        rw [sumAsset_append, hchT, sumConsumed_cons, hconT, if_pos htu]
        simp [sumAsset, List.filter_cons, hbat]
    · rw [if_neg htu] at h
      exact absurd h (by simp)

/-- The concrete prior issuance record consulted by the reissuance. -/
def priorC : IssuanceRecord :=
  { vin := 0, asset := 1, token := 2, assetAmount := some 100,
    tokenAmount := some 1, isReissuance := false }

/-- The concrete reissuance-token input. -/
def tokenUtxoC : Utxo := ⟨⟨3, 0⟩, 2, 1⟩

/-- The concrete reissuance transaction built from them. -/
def reissTxC : BuiltTx :=
  (buildReissuance 0 1 10 tokenUtxoC [⟨⟨4, 0⟩, 0, 50000⟩] priorC 700).getD
    ⟨[], [], [], 0, []⟩

/-- Witness for C7 at the concrete reissuance. -/
theorem c7_reissuance_analysis_witness :
    (getDetails reissTxC).issuances
      = [{ vin := 0, asset := priorC.asset, token := priorC.token,
           assetAmount := some 700, tokenAmount := none, isReissuance := true }] :=
  (c7_reissuance_analysis 0 1 10 700 tokenUtxoC [⟨⟨4, 0⟩, 0, 50000⟩] priorC reissTxC
    rfl (by decide) (by decide) (by decide) (by decide) (by decide)).1

/-! ### C8 — analysis of a built burn transaction -/

/-- Counterexample to C8 as stated: when the burned asset `X` is the
policy asset itself, the claim requires both a policy-asset delta of
`-(fee + B)` and an `X` delta of `0`; these name the same map entry, so
at a concrete policy-asset burn the conjunction is false — the single
entry equals `-(fee + B)`, not `0`. -/
theorem c8_burn_counterexample :
    ¬ ((getDetails (buildBurn 0 1 10 [⟨⟨0, 0⟩, 0, 100⟩] 5 0)).balances 0
          = -((computeFee 1 10 : Int) + 5)
        ∧ (getDetails (buildBurn 0 1 10 [⟨⟨0, 0⟩, 0, 100⟩] 5 0)).balances 0 = 0) := by
  decide

/-- C8 (amended): for every built burn of amount `B` of asset `X`, the
delta of `X` is `-B` less the fee when `X` is the policy asset, and the
policy-asset delta is `-fee` less the burn amount when `X` is the policy
asset — i.e. a policy-asset burn shows the single delta `-(fee + B)`
(not a separate zero entry), and a non-policy burn shows `-B` on `X` and
exactly `-fee` on the policy asset.  The analysis has no issuance
records.  The funding hypotheses say the selection funds both assets and
covers the burn plus fee. -/
theorem c8_burn_analysis_amended (policy : AssetId) (feeRate weight satoshi : Nat)
    (asset : AssetId) (funding : List Utxo)
    (hmem : asset ∈ assetsOf funding) (hpm : policy ∈ assetsOf funding)
    (hca : satoshi + (if asset = policy then computeFee feeRate weight else 0)
             ≤ sumConsumed funding asset)
    (hcp : (if asset = policy then satoshi else 0) + computeFee feeRate weight
             ≤ sumConsumed funding policy) :
    (getDetails (buildBurn policy feeRate weight funding satoshi asset)).balances asset
      = -(satoshi : Int) - (if asset = policy then (computeFee feeRate weight : Int) else 0)
    ∧ (getDetails (buildBurn policy feeRate weight funding satoshi asset)).balances policy
      = -(if asset = policy then (satoshi : Int) else 0) - (computeFee feeRate weight : Int)
    ∧ (getDetails (buildBurn policy feeRate weight funding satoshi asset)).issuances = [] := by
  have hnd : (assetsOf funding).Nodup := List.nodup_dedup _
  have hchA :
      sumAsset ((assetsOf funding).map fun a =>
          (a, sumConsumed funding a - (if a = asset then satoshi else 0)
                - (if a = policy then computeFee feeRate weight else 0))) asset
        = sumConsumed funding asset - satoshi
            - (if asset = policy then computeFee feeRate weight else 0) := by
    simpa using sumAsset_map_fun (assetsOf funding)
      (fun a => sumConsumed funding a - (if a = asset then satoshi else 0)
          - (if a = policy then computeFee feeRate weight else 0)) asset hnd hmem
  have hchP :
      sumAsset ((assetsOf funding).map fun a =>
          (a, sumConsumed funding a - (if a = asset then satoshi else 0)
                - (if a = policy then computeFee feeRate weight else 0))) policy
        = sumConsumed funding policy - (if policy = asset then satoshi else 0)
            - computeFee feeRate weight := by
    simpa using sumAsset_map_fun (assetsOf funding)
      (fun a => sumConsumed funding a - (if a = asset then satoshi else 0)
          - (if a = policy then computeFee feeRate weight else 0)) policy hnd hpm
  refine ⟨?_, ?_, rfl⟩
  · show (sumAsset ((assetsOf funding).map fun a =>
            (a, sumConsumed funding a - (if a = asset then satoshi else 0)
                  - (if a = policy then computeFee feeRate weight else 0))) asset : Int)
          - (sumConsumed funding asset : Int)
        = -(satoshi : Int)
            - (if asset = policy then (computeFee feeRate weight : Int) else 0)
    rw [hchA]
    by_cases hap : asset = policy
    · rw [if_pos hap] at hca ⊢
      rw [if_pos hap]
      omega
    · rw [if_neg hap] at hca ⊢
      rw [if_neg hap]
      omega
  · show (sumAsset ((assetsOf funding).map fun a =>
            (a, sumConsumed funding a - (if a = asset then satoshi else 0)
                  - (if a = policy then computeFee feeRate weight else 0))) policy : Int)
          - (sumConsumed funding policy : Int)
        = -(if asset = policy then (satoshi : Int) else 0)
            - (computeFee feeRate weight : Int)
    rw [hchP]
    by_cases hap : asset = policy
    · rw [if_pos hap] at hcp
      rw [if_pos hap, if_pos hap.symm]
      omega
    · rw [if_neg hap] at hcp
      rw [if_neg hap, if_neg fun he => hap he.symm]
      omega

/-- Witness for the amended C8 at a concrete non-policy burn. -/
theorem c8_burn_analysis_amended_witness :
    (getDetails (buildBurn 0 1 10 [⟨⟨0, 0⟩, 0, 100⟩, ⟨⟨0, 1⟩, 1, 50⟩] 5 1)).balances 1
      = -(5 : Int) - (if (1 : AssetId) = 0 then (computeFee 1 10 : Int) else 0) :=
  (c8_burn_analysis_amended 0 1 10 5 1 [⟨⟨0, 0⟩, 0, 100⟩, ⟨⟨0, 1⟩, 1, 50⟩]
    (by decide) (by decide) (by decide) (by decide)).1

/-! ### The ledger scan state and its persistence

Modelled from the spec: the persistence collaborator stores the scan
state, and the wollet reconstructs balance and update history by
replaying stored updates — "balance and update history recomputed from
persisted scan state must equal the in-memory values at the last
successful merge_scan". -/

/-- Modelled from the spec: one event of a chain-data delta — a new
output paying a wallet address, with its unblinded asset and amount
(`none` when the blinding cannot be reversed with the wallet key; such an
output is silently excluded from the balance), or the spend of a known
outpoint. -/
inductive ScanEvent
  | newOutput (op : OutPoint) (unblinded : Option (AssetId × Nat))
  | spent (op : OutPoint)
deriving DecidableEq, Repr

/-- A chain-data delta handed to `merge_scan`. -/
abbrev Update := List ScanEvent

/-- Modelled from the spec: the scan state — the outputs currently
unspent, with their unblinded contents when available. -/
structure UtxoState where
  utxos : List (OutPoint × Option (AssetId × Nat))
deriving DecidableEq, Repr

/-- Apply one scan event: record a new output, or drop a spent one. -/
def applyEvent (s : UtxoState) (e : ScanEvent) : UtxoState :=
  match e with
  | .newOutput op u => ⟨s.utxos ++ [(op, u)]⟩
  | .spent op => ⟨s.utxos.filter fun x => decide (x.1 ≠ op)⟩

/-- Apply a whole chain-data delta, event by event. -/
def applyUpdate (s : UtxoState) (u : Update) : UtxoState := u.foldl applyEvent s

/-- The empty scan state of a fresh wallet. -/
def initState : UtxoState := ⟨[]⟩

/-- Modelled from the spec: the balance — the sum of unblinded amounts of
the unspent outputs of one asset; outputs without unblinded contents are
skipped, never counted. -/
def balanceState (s : UtxoState) (a : AssetId) : Nat :=
  s.utxos.foldl
    (fun acc x =>
      match x.2 with
      | some (a2, v) => if a2 = a then acc + v else acc
      | none => acc) 0

/-- Modelled from the spec: a wollet — its in-memory scan state plus the
update list held by the persistence collaborator. -/
structure Wollet where
  persisted : List Update
  state : UtxoState
deriving DecidableEq, Repr

/-- Modelled from the spec: `merge_scan` — the only mutator of the
ledger: it applies the chain-data delta to the in-memory state and
appends it to the persisted update history. -/
def mergeScan (w : Wollet) (u : Update) : Wollet :=
  ⟨w.persisted ++ [u], applyUpdate w.state u⟩

/-- Modelled from the spec: reconstructing a wollet from persisted scan
state — `Wollet::with_fs_persist` replays the stored updates from the
empty state. -/
def loadWollet (persisted : List Update) : Wollet :=
  ⟨persisted, persisted.foldl applyUpdate initState⟩

/-- The `updates()` accessor: the stored update history. -/
def Wollet.updates (w : Wollet) : List Update := w.persisted

/-- The `balance()` accessor on one asset. -/
def Wollet.balance (w : Wollet) (a : AssetId) : Nat := balanceState w.state a

/-- A wallet lifetime before a restart: a fresh wallet followed by a run
of `merge_scan` calls. -/
def runScans (us : List Update) : Wollet := us.foldl mergeScan (loadWollet [])

/-- A run of merges appends its updates to the history and folds them
into the state. -/
theorem foldl_mergeScan (us : List Update) (w : Wollet) :
    (us.foldl mergeScan w).persisted = w.persisted ++ us
    ∧ (us.foldl mergeScan w).state = us.foldl applyUpdate w.state := by
  induction us generalizing w with
  | nil => simp
  | cons u rest ih =>
    obtain ⟨hp, hs⟩ := ih (mergeScan w u)
    refine ⟨?_, ?_⟩
    · rw [List.foldl_cons, hp]
      simp [mergeScan]
    · rw [List.foldl_cons, hs]
      rfl

/-! ### C9 — persistence reload reproduces balance and history -/

/-- C9: for an unchanged chain state, reconstructing a wallet from the
persisted scan state left by any run of merges yields the same balance on
every asset and the same update history as the in-memory wallet at the
last successful merge, and reloading again from the reloaded wallet
yields the identical wallet. -/
theorem c9_persistence_reload (us : List Update) :
    (∀ a : AssetId,
        (loadWollet (runScans us).updates).balance a = (runScans us).balance a)
    ∧ (loadWollet (runScans us).updates).updates = (runScans us).updates
    ∧ loadWollet ((loadWollet (runScans us).updates).updates)
        = loadWollet (runScans us).updates := by
  have h := foldl_mergeScan us (loadWollet [])
  have hstate : (loadWollet (runScans us).updates).state = (runScans us).state := by
    show (runScans us).persisted.foldl applyUpdate initState = (runScans us).state
    unfold runScans
    rw [h.1, h.2]
    rfl
  exact ⟨fun a => by unfold Wollet.balance; rw [hstate], rfl, rfl⟩

end LwkProof
